import Mathlib

/-!
Verification of `.github/scripts/generate_changelog.py`: a script that turns a
list of commit subject lines into a Markdown changelog grouped by
conventional-commit type.  The Python functions are embedded as executable Lean
definitions over `String` / `List Char`; the external `git` queries are
modelled by passing the raw command output (failure = empty output) as an
argument.
-/

/-- Models Python's regex class `\w` (word character), restricted to the ASCII
range: letters, digits and underscore. -/
def isWordChar (c : Char) : Bool := c.isAlphanum || c == '_'

/-- Python's `str.lower()` applied to a list of characters (ASCII case fold,
which agrees with Python on the ASCII word characters produced by `\w`). -/
def lowerStr (cs : List Char) : String := String.mk (cs.map Char.toLower)

/-- Matching of the final regex group `(.+)$` (no DOTALL, no MULTILINE):
one or more non-newline characters, followed by the end of the string or by a
single final newline (which `$` accepts without consuming).  Returns the
matched characters. -/
def descOf (cs : List Char) : Option (List Char) :=
  match cs.takeWhile (fun c => c != '\n'), cs.dropWhile (fun c => c != '\n') with
  | [], _ => none
  | d, [] => some d
  | d, ['\n'] => some d
  | _, _ => none

/-- `parse_commit` from the source: matches the subject line against the regex
`^(\w+)(?:\(([^)]+)\))?: (.+)$` and returns
`(match.group(1).lower(), match.group(2) or '', match.group(3))`, or
`(None, None, commit_msg)` when the regex does not match.  The regex is
deterministic (the greedy `\w+` run is forced because neither `(` nor `:` is a
word character, and the greedy `[^)]+` run is forced because it must be
followed by `)`), so it is embedded as the structural matcher below. -/
def parse_commit (commit_msg : String) : Option String × Option String × String :=
  match commit_msg.data.takeWhile isWordChar, commit_msg.data.dropWhile isWordChar with
  | [], _ => (none, none, commit_msg)
  | ty, '(' :: r =>
    match r.takeWhile (fun c => c != ')'), r.dropWhile (fun c => c != ')') with
    | [], _ => (none, none, commit_msg)
    | sc, ')' :: ':' :: ' ' :: r2 =>
      match descOf r2 with
      | some d => (some (lowerStr ty), some (String.mk sc), String.mk d)
      | none => (none, none, commit_msg)
    | _, _ => (none, none, commit_msg)
  | ty, ':' :: ' ' :: r2 =>
    match descOf r2 with
    | some d => (some (lowerStr ty), some "", String.mk d)
    | none => (none, none, commit_msg)
  | _, _ => (none, none, commit_msg)

/-- The `COMMIT_TYPES` table from the source: key, display title, order. -/
def COMMIT_TYPES : List (String × String × Nat) :=
  [("feat", "✨ 新功能", 1),
   ("fix", "🐛 Bug修复", 2),
   ("perf", "⚡ 性能优化", 3),
   ("refactor", "♻️ 重构", 4),
   ("docs", "📝 文档", 5),
   ("style", "💄 代码格式", 6),
   ("test", "✅ 测试", 7),
   ("build", "📦️ 构建系统", 8),
   ("ci", "👷 CI配置", 9),
   ("chore", "🔧 其他", 10)]

/-- The keys of `COMMIT_TYPES` (what `commit_type in COMMIT_TYPES` tests). -/
def commitTypeKeys : List String := COMMIT_TYPES.map (fun e => e.1)

/-- `COMMIT_TYPES[t]['title']` (defaulting to `""` off the table; every use in
the program looks up a key present in the table). -/
def typeTitle (t : String) : String :=
  ((COMMIT_TYPES.find? (fun e => e.1 == t)).map (fun e => e.2.1)).getD ""

/-- `COMMIT_TYPES[t]['order']` (defaulting to `0` off the table; every use in
the program looks up a key present in the table). -/
def typeOrder (t : String) : Nat :=
  ((COMMIT_TYPES.find? (fun e => e.1 == t)).map (fun e => e.2.2)).getD 0

/-- Python's `commit.startswith('Merge ')`. -/
def startsWithMerge (commit : String) : Bool :=
  "Merge ".data.isPrefixOf commit.data

/-- `filter_commits` from the source: skip lines starting with `"Merge "`,
parse the rest, and keep `(type, scope, description)` exactly when the parsed
type is a key of `COMMIT_TYPES`.  (When the regex matched, the Python `scope`
is a string, never `None`; `Option.getD ""` records that invariant.) -/
def filter_commits : List String → List (String × String × String)
  | [] => []
  | commit :: rest =>
    if startsWithMerge commit then filter_commits rest
    else
      match parse_commit commit with
      | (some commit_type, scope, description) =>
        if commitTypeKeys.contains commit_type then
          (commit_type, scope.getD "", description) :: filter_commits rest
        else filter_commits rest
      | (none, _, _) => filter_commits rest

/-- A `GroupedCommits` value: the insertion-ordered dict produced by
`group_commits_by_type`, as an association list. -/
abbrev GroupedCommits := List (String × List (String × String))

/-- One step of `grouped[commit_type].append((scope, description))` on a
`defaultdict(list)`: append to the existing bucket, or create a new bucket at
the end (Python dicts preserve key insertion order). -/
def addToGroup (grouped : GroupedCommits) (commit_type : String)
    (p : String × String) : GroupedCommits :=
  match grouped with
  | [] => [(commit_type, [p])]
  | (k, ps) :: rest =>
    if k == commit_type then (k, ps ++ [p]) :: rest
    else (k, ps) :: addToGroup rest commit_type p

/-- `group_commits_by_type` from the source. -/
def group_commits_by_type (parsed_commits : List (String × String × String)) :
    GroupedCommits :=
  parsed_commits.foldl (fun grouped c => addToGroup grouped c.1 c.2) []

/-- Dictionary lookup `grouped_commits[commit_type]` (as used by the renderer,
where the key is always present; absent keys give `[]`). -/
def bucketOf (grouped : GroupedCommits) (t : String) : List (String × String) :=
  ((grouped.find? (fun e => e.1 == t)).map (fun e => e.2)).getD []

/-- The `(scope, description)` pairs of the commits of type `t`, in input
order (the reference bucket contents of claim C6). -/
def typePairs (parsed_commits : List (String × String × String)) (t : String) :
    List (String × String) :=
  (parsed_commits.filter (fun c => c.1 == t)).map (fun c => c.2)

/-- Lookup that distinguishes a missing key from an empty bucket. -/
def findBucket (grouped : GroupedCommits) (t : String) :
    Option (List (String × String)) :=
  (grouped.find? (fun e => e.1 == t)).map (fun e => e.2)

/-- `sorted(grouped_commits.keys(), key=lambda t: COMMIT_TYPES[t]['order'])`:
Python's stable sort, embedded as Mathlib's (stable) insertion sort. -/
def sortByOrder (keys : List String) : List String :=
  List.insertionSort (fun a b => typeOrder a ≤ typeOrder b) keys

instance : IsTotal String (fun a b => typeOrder a ≤ typeOrder b) :=
  ⟨fun a b => Nat.le_total (typeOrder a) (typeOrder b)⟩

instance : IsTrans String (fun a b => typeOrder a ≤ typeOrder b) :=
  ⟨fun _ _ _ hab hbc => Nat.le_trans hab hbc⟩

/-- The `sorted_types` local of `generate_changelog`. -/
def sorted_types (grouped_commits : GroupedCommits) : List String :=
  sortByOrder (grouped_commits.map (fun e => e.1))

/-- One bullet line of the changelog: `- **scope**: description` when the
scope is non-empty (Python truthiness of the string), else `- description`. -/
def bulletLine (p : String × String) : String :=
  if p.1.isEmpty then "- " ++ p.2 else "- **" ++ p.1 ++ "**: " ++ p.2

/-- The elements appended to `lines` for one commit type: the heading element
`"### {title}\n"` (note the embedded newline), the bullet lines, and the
empty-string separator element. -/
def bucketElems (grouped_commits : GroupedCommits) (commit_type : String) :
    List String :=
  ("### " ++ typeTitle commit_type ++ "\n") ::
    ((bucketOf grouped_commits commit_type).map bulletLine ++ [""])

/-- The full `lines` list built by `generate_changelog`. -/
def changelogLines (grouped_commits : GroupedCommits) : List String :=
  (sorted_types grouped_commits).flatMap (bucketElems grouped_commits)

/-- Python's `'\n'.join(lines)`. -/
def joinNL : List String → String
  | [] => ""
  | [l] => l
  | l :: ls => l ++ "\n" ++ joinNL ls

/-- `generate_changelog` from the source. -/
def generate_changelog (grouped_commits : GroupedCommits) : String :=
  joinNL (changelogLines grouped_commits)

/-- Python's `str.split('\n')`: split at every newline, keeping empty pieces
(`''.split('\n') == ['']`). -/
def splitNLChars : List Char → List (List Char)
  | [] => [[]]
  | c :: rest =>
    if c == '\n' then [] :: splitNLChars rest
    else
      match splitNLChars rest with
      | l :: ls => (c :: l) :: ls
      | [] => [[c]]

/-- `output.split('\n')` on strings. -/
def pySplitLines (s : String) : List String :=
  (splitNLChars s.data).map String.mk

/-- The whitespace characters of Python's `str.strip()` (ASCII range). -/
def isPySpace (c : Char) : Bool :=
  c == ' ' || c == '\t' || c == '\n' || c == '\r' || c == '\x0b' || c == '\x0c'

/-- Python's `str.strip()`: drop leading and trailing whitespace. -/
def pyStrip (s : String) : String :=
  String.mk (((s.data.dropWhile isPySpace).reverse.dropWhile isPySpace).reverse)

/-- `get_last_tag` from the source, as a function of the string returned by
`run_command` (the stripped stdout of the tag query; `""` on failure, thanks
to the `|| echo ''` fallback and to `subprocess.run` not checking the exit
code): `return tag if tag else None`. -/
def get_last_tag (raw : String) : Option String :=
  if raw.isEmpty then none else some raw

/-- `get_commits_since` from the source, as a function of the string returned
by `run_command` for the log query (`""` on failure):
`[line.strip() for line in output.split('\n') if line.strip()]`. -/
def get_commits_since (output : String) : List String :=
  (pySplitLines output).filterMap fun line =>
    if (pyStrip line).isEmpty then none else some (pyStrip line)

/-- The placeholder printed when the fetched commit list is empty. -/
def noUpdates : String := "## 无更新内容"

/-- The placeholder printed when no commit survives filtering/parsing. -/
def noCategorized : String := "## 无分类的更新内容"

/-- The one-line status `main` prints to `sys.stderr` before fetching. -/
def statusLine : Option String → String
  | some tag => "# 从 " ++ tag ++ " 到现在的更新"
  | none => "# 首次发布"

/-- `main` from the source, as a function of the resolved tag and the fetched
commit list, returning `(stdout, stderr)`: the status line goes to stderr;
stdout is a placeholder when the fetched or the filtered list is empty, and
the rendered changelog otherwise. -/
def mainOutput (last_tag : Option String) (commits : List String) :
    String × String :=
  if commits.isEmpty then (noUpdates, statusLine last_tag)
  else
    let parsed_commits := filter_commits commits
    if parsed_commits.isEmpty then (noCategorized, statusLine last_tag)
    else (generate_changelog (group_commits_by_type parsed_commits), statusLine last_tag)

/-- The grammar of claim C1, written from the spec's words: `<type>` is one or
more word characters (the maximal such run, since the next symbol of the
grammar is never a word character), optionally `(<scope>)` with `<scope>` a
(nonempty, maximal) run of non-`)` characters, then the literal `": "`, and
`<description>` is the (nonempty) remainder of the line, returned verbatim;
the type is case-folded to lowercase and a missing scope becomes `""`. -/
def grammarParse (line : String) : Option (String × String × String) :=
  match line.data.takeWhile isWordChar, line.data.dropWhile isWordChar with
  | [], _ => none
  | ty, '(' :: r =>
    match r.takeWhile (fun c => c != ')'), r.dropWhile (fun c => c != ')') with
    | [], _ => none
    | sc, ')' :: ':' :: ' ' :: d =>
      if d.isEmpty then none else some (lowerStr ty, String.mk sc, String.mk d)
    | _, _ => none
  | ty, ':' :: ' ' :: d =>
    if d.isEmpty then none else some (lowerStr ty, "", String.mk d)
  | _, _ => none

/-- The per-line filter policy of claim C2, written from the spec's words:
drop a line beginning with the literal `"Merge "` even if it would otherwise
parse; parse the rest; keep the parsed result exactly when its type is present
and is a key of the closed `COMMIT_TYPES` enumeration. -/
def keepLine (line : String) : Option (String × String × String) :=
  if startsWithMerge line then none
  else
    match parse_commit line with
    | (some t, sc, d) =>
      if commitTypeKeys.contains t then some (t, sc.getD "", d) else none
    | (none, _, _) => none

/-- Joining a list of strings with an arbitrary separator. -/
def joinWith (sep : String) : List String → String
  | [] => ""
  | [l] => l
  | l :: ls => l ++ sep ++ joinWith sep ls

/-- One bucket as claim C4 words it: the level-3 heading line with the type's
display title, then one bullet line per commit, with no blank line in
between. -/
def claimC4Bucket (grouped : GroupedCommits) (t : String) : String :=
  "### " ++ typeTitle t ++ "\n" ++ joinNL ((bucketOf grouped t).map bulletLine)

/-- The renderer exactly as claim C4 describes it: the buckets in priority
order, with exactly one blank line separating consecutive buckets and no
other blank lines. -/
def claimC4Render (grouped : GroupedCommits) : String :=
  joinWith "\n\n" ((sorted_types grouped).map (claimC4Bucket grouped))

/-- One bucket as the amended claim C4 words it: the level-3 heading line with
the type's display title, then a blank line, then one bullet line per commit,
then a final newline closing the bucket (so that consecutive buckets end up
separated by exactly one blank line). -/
def amendedBucket (grouped : GroupedCommits) (t : String) : String :=
  "### " ++ typeTitle t ++ "\n\n" ++ joinNL ((bucketOf grouped t).map bulletLine) ++ "\n"

/-- The renderer as the amended claim C4 describes it: the buckets in priority
order, each formatted by `amendedBucket`, joined by single newlines (the
closing newline of each bucket plus the joining newline yield the one blank
line separating consecutive buckets, and the output ends with a trailing
newline). -/
def amendedRender (grouped : GroupedCommits) : String :=
  joinNL ((sorted_types grouped).map (amendedBucket grouped))

theorem joinNL_cons_of_ne (l : String) {ls : List String} (h : ls ≠ []) :
    joinNL (l :: ls) = l ++ "\n" ++ joinNL ls := by
  cases ls with
  | nil => exact absurd rfl h
  | cons x xs => rfl

theorem joinNL_append {A B : List String} (hA : A ≠ []) (hB : B ≠ []) :
    joinNL (A ++ B) = joinNL A ++ "\n" ++ joinNL B := by
  induction A with
  | nil => exact absurd rfl hA
  | cons a A ih =>
    cases A with
    | nil =>
      exact joinNL_cons_of_ne a hB
    | cons a2 A2 =>
      rw [List.cons_append, joinNL_cons_of_ne a (by simp),
        joinNL_cons_of_ne a (List.cons_ne_nil a2 A2), ih (List.cons_ne_nil a2 A2)]
      simp [String.append_assoc]

theorem joinNL_bucketElems {grouped : GroupedCommits} {t : String}
    (h : bucketOf grouped t ≠ []) :
    joinNL (bucketElems grouped t) = amendedBucket grouped t := by
  have hbul : (bucketOf grouped t).map bulletLine ≠ [] := by
    simpa [List.map_eq_nil_iff] using h
  have h1 : (bucketOf grouped t).map bulletLine ++ [""] ≠ [] := by
    simp
  rw [bucketElems, joinNL_cons_of_ne _ h1,
    joinNL_append hbul (by simp : ([""] : List String) ≠ [])]
  show _ = "### " ++ typeTitle t ++ "\n\n" ++ _ ++ "\n"
  have : ("\n\n" : String) = "\n" ++ "\n" := by decide
  rw [this]
  simp only [joinNL, String.append_empty, String.append_assoc]

theorem joinNL_flatMap_buckets (grouped : GroupedCommits) :
    ∀ ks : List String, (∀ t ∈ ks, bucketOf grouped t ≠ []) →
      joinNL (ks.flatMap (bucketElems grouped)) =
        joinNL (ks.map (amendedBucket grouped)) := by
  intro ks
  induction ks with
  | nil => intro _; rfl
  | cons t ks ih =>
    intro h
    have ht : bucketOf grouped t ≠ [] := h t (by simp)
    have hks : ∀ u ∈ ks, bucketOf grouped u ≠ [] := fun u hu => h u (by simp [hu])
    cases ks with
    | nil =>
      simpa [List.flatMap, joinNL] using joinNL_bucketElems ht
    | cons k2 ks2 =>
      have hflat : (k2 :: ks2).flatMap (bucketElems grouped) ≠ [] := by
        simp [List.flatMap_cons, bucketElems]
      have hmap : (k2 :: ks2).map (amendedBucket grouped) ≠ [] := by simp
      rw [List.flatMap_cons,
        joinNL_append (by simp [bucketElems] : bucketElems grouped t ≠ []) hflat,
        joinNL_bucketElems ht, ih hks]
      conv_rhs => rw [List.map_cons]
      rw [joinNL_cons_of_ne _ hmap]

/-- C4 counterexample: on the grouped input with the single bucket
`feat ↦ [("", "add login")]`, `generate_changelog` puts a blank line between
the heading and its bullet lines (and a trailing newline after the bucket), so
its output is not the claimed layout (heading, bullets, and exactly one blank
line separating consecutive buckets with no other blank lines), which
`claimC4Render` spells out. -/
theorem changelog_layout_counterexample :
    generate_changelog [("feat", [("", "add login")])] = "### ✨ 新功能\n\n- add login\n"
    ∧ claimC4Render [("feat", [("", "add login")])] = "### ✨ 新功能\n- add login"
    ∧ generate_changelog [("feat", [("", "add login")])] ≠
        claimC4Render [("feat", [("", "add login")])] :=
  ⟨by decide, by decide, by decide⟩

/-- C4 (amended): for every `GroupedCommits` whose buckets are non-empty (as
`group_commits_by_type` always produces), `generate_changelog` emits, for each
bucket in priority order, the level-3 heading with the type's display title,
then a blank line, then one bullet line per commit — `- **scope**: description`
when the scope is non-empty and `- description` when it is empty (both inside
the definition of `amendedBucket` via `bulletLine`) — then a blank line closing
the bucket, so that consecutive buckets are separated by exactly one blank line
and the output ends with a trailing newline. -/
theorem changelog_layout_amended (grouped : GroupedCommits)
    (hne : ∀ t ∈ sorted_types grouped, bucketOf grouped t ≠ []) :
    generate_changelog grouped = amendedRender grouped := by
  rw [generate_changelog, changelogLines, amendedRender,
    joinNL_flatMap_buckets grouped (sorted_types grouped) hne]

/-- Witness for `changelog_layout_amended` at a concrete two-bucket input. -/
theorem changelog_layout_amended_witness :
    (∀ t ∈ sorted_types [("fix", [("auth", "token bug")]), ("feat", [("", "add login")])],
      bucketOf [("fix", [("auth", "token bug")]), ("feat", [("", "add login")])] t ≠ [])
    ∧ generate_changelog [("fix", [("auth", "token bug")]), ("feat", [("", "add login")])] =
        amendedRender [("fix", [("auth", "token bug")]), ("feat", [("", "add login")])] :=
  ⟨by decide, changelog_layout_amended _ (by decide)⟩

/-- C9: the Renderer is deterministic — two applications of
`generate_changelog` to the same `GroupedCommits` value give byte-identical
strings (it is a pure function of its argument). -/
theorem generate_changelog_deterministic (grouped : GroupedCommits) :
    generate_changelog grouped = generate_changelog grouped := rfl

/-- C8: on the commit list
`["feat: add login", "fix(auth): token bug", "Merge pull request #1"]` the
filter–group–render pipeline yields exactly the two buckets `feat` and `fix`,
renders the `feat` heading before the `fix` heading, and renders the single
line of the `fix` bucket as `- **auth**: token bug`. -/
theorem scenario_one_pipeline :
    filter_commits ["feat: add login", "fix(auth): token bug", "Merge pull request #1"] =
      [("feat", "", "add login"), ("fix", "auth", "token bug")]
    ∧ group_commits_by_type
        (filter_commits ["feat: add login", "fix(auth): token bug", "Merge pull request #1"]) =
      [("feat", [("", "add login")]), ("fix", [("auth", "token bug")])]
    ∧ generate_changelog (group_commits_by_type
        (filter_commits ["feat: add login", "fix(auth): token bug", "Merge pull request #1"])) =
      "### ✨ 新功能\n\n- add login\n\n### 🐛 Bug修复\n\n- **auth**: token bug\n" :=
  ⟨by decide, by decide, by decide⟩

/-- C5: `main` prints exactly the fixed "no updates" placeholder when the
fetched commit list is empty, exactly the fixed "no categorized updates"
placeholder when the fetched list is non-empty but filtering/parsing keeps
nothing, and the rendered Markdown otherwise; the one-line status derived from
the diffed-from reference goes to the diagnostic channel (the second
component) and the primary output is always exactly one of those three
values, never the status line. -/
theorem main_output_channels (last_tag : Option String) (commits : List String) :
    (commits = [] → (mainOutput last_tag commits).1 = noUpdates)
    ∧ (commits ≠ [] → filter_commits commits = [] →
        (mainOutput last_tag commits).1 = noCategorized)
    ∧ (filter_commits commits ≠ [] →
        (mainOutput last_tag commits).1 =
          generate_changelog (group_commits_by_type (filter_commits commits)))
    ∧ (mainOutput last_tag commits).2 = statusLine last_tag := by
  rcases commits with _ | ⟨c, cs⟩
  · exact ⟨fun _ => rfl, fun h _ => absurd rfl h, fun h => absurd rfl h, rfl⟩
  · refine ⟨fun h => absurd h (List.cons_ne_nil c cs), fun _ hf => ?_, fun hf => ?_, ?_⟩
    · simp [mainOutput, hf]
    · have : (filter_commits (c :: cs)).isEmpty = false := by
        cases hfc : filter_commits (c :: cs) with
        | nil => exact absurd hfc hf
        | cons x xs => rfl
      simp [mainOutput, this]
    · simp only [mainOutput]
      split
      · rfl
      · split
        · rfl
        · rfl

/-- Witness for `main_output_channels` at a concrete tag and commit list. -/
theorem main_output_channels_witness :
    ((["feat: add login"] : List String) = [] →
      (mainOutput (some "v1") ["feat: add login"]).1 = noUpdates)
    ∧ ((["feat: add login"] : List String) ≠ [] →
        filter_commits ["feat: add login"] = [] →
        (mainOutput (some "v1") ["feat: add login"]).1 = noCategorized)
    ∧ (filter_commits ["feat: add login"] ≠ [] →
        (mainOutput (some "v1") ["feat: add login"]).1 =
          generate_changelog (group_commits_by_type (filter_commits ["feat: add login"])))
    ∧ (mainOutput (some "v1") ["feat: add login"]).2 = statusLine (some "v1") :=
  main_output_channels (some "v1") ["feat: add login"]

/-- C7: the run degrades rather than aborting — on a failed (empty-output)
query the Tag Resolver returns `none` and the Commit Fetcher returns `[]`,
and for every outcome of the two queries the run completes with one of the
defined primary outputs (a placeholder or the rendered changelog). -/
theorem queries_degrade :
    get_last_tag "" = none
    ∧ get_commits_since "" = []
    ∧ mainOutput (get_last_tag "") (get_commits_since "") = (noUpdates, statusLine none)
    ∧ ∀ (raw_tag raw_log : String),
        (mainOutput (get_last_tag raw_tag) (get_commits_since raw_log)).1 = noUpdates
        ∨ (mainOutput (get_last_tag raw_tag) (get_commits_since raw_log)).1 = noCategorized
        ∨ (mainOutput (get_last_tag raw_tag) (get_commits_since raw_log)).1 =
            generate_changelog (group_commits_by_type
              (filter_commits (get_commits_since raw_log))) := by
  refine ⟨rfl, rfl, rfl, fun raw_tag raw_log => ?_⟩
  simp only [mainOutput]
  split
  · exact Or.inl rfl
  · split
    · exact Or.inr (Or.inl rfl)
    · exact Or.inr (Or.inr rfl)

/-- C2: the Filter is the per-line policy `keepLine` mapped over the input by
`List.filterMap` — every line beginning with the literal `"Merge "` is dropped
even if it would otherwise parse, every line whose parsed type is absent or
not a key of `COMMIT_TYPES` is dropped, every other parsed result is kept,
and `filterMap` preserves the relative order of the kept results. -/
theorem filter_commits_policy (commits : List String) :
    filter_commits commits = commits.filterMap keepLine := by
  induction commits with
  | nil => rfl
  | cons c cs ih =>
    rw [List.filterMap_cons]
    rcases hp : parse_commit c with ⟨ot, os, d⟩
    cases ot with
    | none =>
      by_cases hm : startsWithMerge c <;>
        simp [filter_commits, keepLine, hm, hp, ih]
    | some t =>
      by_cases hm : startsWithMerge c
      · simp [filter_commits, keepLine, hm, ih]
      · by_cases hk : t ∈ commitTypeKeys <;>
          simp [filter_commits, keepLine, hm, hp, hk, ih]

theorem findBucket_addToGroup (grouped : GroupedCommits) (k t : String)
    (p : String × String) :
    findBucket (addToGroup grouped k p) t =
      if t = k then some ((findBucket grouped t).getD [] ++ [p])
      else findBucket grouped t := by
  induction grouped with
  | nil =>
    by_cases h : t = k
    · subst h; simp [addToGroup, findBucket]
    · have : (k == t) = false := by
        simpa using fun hh => h hh.symm
      simp [addToGroup, findBucket, h, this]
  | cons e rest ih =>
    rcases e with ⟨k2, ps⟩
    by_cases h1 : k2 = k
    · subst h1
      by_cases h2 : t = k2
      · subst h2; simp [addToGroup, findBucket]
      · have : (k2 == t) = false := by
          simpa using fun hh => h2 hh.symm
        simp [addToGroup, findBucket, h2, this]
    · have hk2 : (k2 == k) = false := by simpa using h1
      by_cases h2 : k2 = t
      · subst h2
        simp [addToGroup, findBucket, hk2, h1]
      · have hk2t : (k2 == t) = false := by simpa using h2
        have hcons : addToGroup ((k2, ps) :: rest) k p = (k2, ps) :: addToGroup rest k p := by
          simp [addToGroup, hk2]
        have h3 : ∀ L : GroupedCommits, findBucket ((k2, ps) :: L) t = findBucket L t :=
          fun L => by simp [findBucket, List.find?_cons, hk2t]
        rw [hcons]
        simp only [h3]
        exact ih

theorem findBucket_foldl (parsed : List (String × String × String)) :
    ∀ (acc : GroupedCommits) (t : String),
      findBucket (parsed.foldl (fun g c => addToGroup g c.1 c.2) acc) t =
        match findBucket acc t with
        | some ps => some (ps ++ typePairs parsed t)
        | none =>
          if typePairs parsed t = [] then none else some (typePairs parsed t) := by
  induction parsed with
  | nil =>
    intro acc t
    cases h : findBucket acc t <;> simp [typePairs, h]
  | cons c cs ih =>
    intro acc t
    rw [List.foldl_cons, ih, findBucket_addToGroup]
    by_cases hct : t = c.1
    · have hTP : typePairs (c :: cs) t = c.2 :: typePairs cs t := by
        rw [typePairs, typePairs]
        simp [List.filter_cons, hct]
      rw [if_pos hct, hTP]
      cases h : findBucket acc t with
      | some ps => simp [h]
      | none => simp [h]
    · have hTP : typePairs (c :: cs) t = typePairs cs t := by
        rw [typePairs, typePairs]
        have : (c.1 == t) = false := by
          simpa using fun hh => hct hh.symm
        simp [List.filter_cons, this]
      rw [if_neg hct, hTP]

theorem addToGroup_nonempty {grouped : GroupedCommits}
    (h : ∀ e ∈ grouped, e.2 ≠ []) (k : String) (p : String × String) :
    ∀ e ∈ addToGroup grouped k p, e.2 ≠ [] := by
  induction grouped with
  | nil =>
    intro e he
    simp [addToGroup] at he
    subst he
    simp
  | cons e2 rest ih =>
    rcases e2 with ⟨k2, ps⟩
    intro e he
    by_cases hk : k2 == k
    · rw [addToGroup] at he
      simp only [hk, if_pos rfl] at he
      rcases List.mem_cons.mp he with rfl | hmem
      · simp
      · exact h e (List.mem_cons_of_mem _ hmem)
    · rw [addToGroup] at he
      simp only [hk] at he
      rcases List.mem_cons.mp he with rfl | hmem
      · exact h (k2, ps) (by simp)
      · exact ih (fun x hx => h x (List.mem_cons_of_mem _ hx)) e hmem

theorem group_nonempty (parsed : List (String × String × String)) :
    ∀ acc : GroupedCommits, (∀ e ∈ acc, e.2 ≠ []) →
      ∀ e ∈ parsed.foldl (fun g c => addToGroup g c.1 c.2) acc, e.2 ≠ [] := by
  induction parsed with
  | nil => intro acc hacc; exact hacc
  | cons c cs ih =>
    intro acc hacc
    rw [List.foldl_cons]
    exact ih _ (addToGroup_nonempty hacc c.1 c.2)

/-- C6: `group_commits_by_type` maps each type `t` to exactly the list of
`(scope, description)` pairs of the type-`t` input commits in first-seen to
last-seen order (`typePairs`); a type with no input commit has no bucket at
all, and the mapping never contains an empty bucket. -/
theorem group_commits_spec (parsed : List (String × String × String)) (t : String) :
    (findBucket (group_commits_by_type parsed) t =
      if typePairs parsed t = [] then none else some (typePairs parsed t))
    ∧ (typePairs parsed t = [] ↔ t ∉ parsed.map (fun c => c.1))
    ∧ (∀ e ∈ group_commits_by_type parsed, e.2 ≠ []) := by
  refine ⟨?_, ?_, group_nonempty parsed [] (by simp)⟩
  · rw [group_commits_by_type, findBucket_foldl]
    rfl
  · rw [typePairs]
    simp only [List.map_eq_nil_iff, List.filter_eq_nil_iff, List.mem_map, beq_iff_eq]
    constructor
    · intro hall hex
      rcases hex with ⟨c, hc, hct⟩
      exact hall c hc hct
    · intro hnot c hc hct
      exact hnot ⟨c, hc, hct⟩

theorem sorted_types_perm (grouped : GroupedCommits) :
    (sorted_types grouped).Perm (grouped.map (fun e => e.1)) :=
  List.perm_insertionSort _ _

theorem sorted_types_le (grouped : GroupedCommits) :
    List.Pairwise (fun a b => typeOrder a ≤ typeOrder b) (sorted_types grouped) :=
  List.sorted_insertionSort _ _

theorem typeOrder_inj_on_keys :
    ∀ a ∈ commitTypeKeys, ∀ b ∈ commitTypeKeys, typeOrder a = typeOrder b → a = b := by
  decide

/-- In a list whose adjacent-pairs relation `R` holds pairwise, an element `a`
with `¬ R b a` appears before `b` (both assumed present and distinct). -/
theorem pairwise_mem_sublist {α : Type} {R : α → α → Prop} {a b : α} :
    ∀ {l : List α}, List.Pairwise R l → a ∈ l → b ∈ l → ¬ R b a → a ≠ b →
      List.Sublist [a, b] l := by
  intro l
  induction l with
  | nil => intro _ ha _ _ _; simp at ha
  | cons x xs ih =>
    intro hp ha hb hnR hne
    rcases List.mem_cons.mp ha with rfl | ha2
    · have hb2 : b ∈ xs := by
        rcases List.mem_cons.mp hb with rfl | hmem
        · exact absurd rfl hne
        · exact hmem
      exact List.cons_sublist_cons.mpr (List.singleton_sublist.mpr hb2)
    · rcases List.mem_cons.mp hb with rfl | hb2
      · exact absurd ((List.pairwise_cons.mp hp).1 a ha2) hnR
      · exact ((ih (List.pairwise_cons.mp hp).2 ha2 hb2 hnR hne).cons x)

/-- C3: on a `GroupedCommits` whose keys are distinct members of the
`COMMIT_TYPES` enumeration (as `group_commits_by_type` produces), the
Renderer's bucket order `sorted_types` is a permutation of the input keys
arranged in strictly ascending `typeOrder` priority regardless of input
order; in particular, when both are present, `"feat"` comes before `"fix"`. -/
theorem changelog_buckets_sorted (grouped : GroupedCommits)
    (hnd : (grouped.map (fun e => e.1)).Nodup)
    (hmem : ∀ k ∈ grouped.map (fun e => e.1), k ∈ commitTypeKeys) :
    (sorted_types grouped).Perm (grouped.map (fun e => e.1))
    ∧ List.Pairwise (fun a b => typeOrder a < typeOrder b) (sorted_types grouped)
    ∧ ("feat" ∈ grouped.map (fun e => e.1) → "fix" ∈ grouped.map (fun e => e.1) →
        List.Sublist ["feat", "fix"] (sorted_types grouped)) := by
  have hperm := sorted_types_perm grouped
  have hnd2 : (sorted_types grouped).Nodup := hperm.nodup_iff.mpr hnd
  have hmem2 : ∀ k ∈ sorted_types grouped, k ∈ commitTypeKeys :=
    fun k hk => hmem k (hperm.mem_iff.mp hk)
  have hle := List.Pairwise.and_mem.mp (sorted_types_le grouped)
  have hne := List.Pairwise.and_mem.mp hnd2
  have hlt : List.Pairwise (fun a b => typeOrder a < typeOrder b) (sorted_types grouped) := by
    have hand := List.Pairwise.and hle hne
    refine hand.imp ?_
    rintro a b ⟨⟨hal, hbl, hab⟩, -, -, hneq⟩
    refine Nat.lt_of_le_of_ne hab ?_
    exact fun heq => hneq (typeOrder_inj_on_keys a (hmem2 a hal) b (hmem2 b hbl) heq)
  refine ⟨hperm, hlt, fun hfeat hfix => ?_⟩
  exact pairwise_mem_sublist hlt (hperm.mem_iff.mpr hfeat) (hperm.mem_iff.mpr hfix)
    (by decide) (by decide)

/-- Witness for `changelog_buckets_sorted` on a concrete two-bucket value with
`fix` inserted before `feat`. -/
theorem changelog_buckets_sorted_witness :
    (([("fix", [("", "b")]), ("feat", [("", "a")])].map
        (fun e : String × List (String × String) => e.1)).Nodup
      ∧ ∀ k ∈ [("fix", [("", "b")]), ("feat", [("", "a")])].map
          (fun e : String × List (String × String) => e.1), k ∈ commitTypeKeys)
    ∧ ((sorted_types [("fix", [("", "b")]), ("feat", [("", "a")])]).Perm
        ([("fix", [("", "b")]), ("feat", [("", "a")])].map (fun e => e.1))
      ∧ List.Pairwise (fun a b => typeOrder a < typeOrder b)
          (sorted_types [("fix", [("", "b")]), ("feat", [("", "a")])])
      ∧ ("feat" ∈ [("fix", [("", "b")]), ("feat", [("", "a")])].map (fun e => e.1) →
          "fix" ∈ [("fix", [("", "b")]), ("feat", [("", "a")])].map (fun e => e.1) →
          List.Sublist ["feat", "fix"]
            (sorted_types [("fix", [("", "b")]), ("feat", [("", "a")])]))) :=
  ⟨⟨by decide, by decide⟩,
    changelog_buckets_sorted [("fix", [("", "b")]), ("feat", [("", "a")])]
      (by decide) (by decide)⟩

theorem isEmpty_false_iff (s : String) : s.isEmpty = false ↔ s ≠ "" := by
  rw [Bool.eq_false_iff, ne_eq, String.isEmpty_iff]

/-- C10: the Commit Fetcher strips leading and trailing whitespace from every
split line of the raw log output and drops whitespace-only lines — so every
stripped non-whitespace-only line is delivered, everything delivered is the
stripped form of some input line and non-empty, and a padded subject such as
`"  feat: x "` is delivered as `"feat: x"`, which matches the start-anchored
grammar even though the padded original does not. -/
theorem fetch_strips_lines (output : String) :
    (∀ line ∈ pySplitLines output, pyStrip line ≠ "" →
        pyStrip line ∈ get_commits_since output)
    ∧ (∀ l ∈ get_commits_since output, ∃ line ∈ pySplitLines output,
        l = pyStrip line ∧ l ≠ "")
    ∧ get_commits_since "  feat: x \t\n   \n fix(a): y" = ["feat: x", "fix(a): y"]
    ∧ pyStrip "  feat: x " = "feat: x"
    ∧ parse_commit "feat: x" = (some "feat", some "", "x")
    ∧ parse_commit "  feat: x " = (none, none, "  feat: x ") := by
  refine ⟨?_, ?_, by decide, by decide, by decide, by decide⟩
  · intro line hline hne
    rw [get_commits_since]
    refine List.mem_filterMap.mpr ⟨line, hline, ?_⟩
    rw [if_neg ?_]
    intro hempty
    exact hne (String.isEmpty_iff _ |>.mp hempty)
  · intro l hl
    rw [get_commits_since] at hl
    rcases List.mem_filterMap.mp hl with ⟨line, hline, hsome⟩
    by_cases hempty : (pyStrip line).isEmpty = true
    · rw [if_pos hempty] at hsome
      exact absurd hsome (by simp)
    · rw [if_neg hempty] at hsome
      refine ⟨line, hline, ?_, ?_⟩
      · exact (Option.some_inj.mp hsome).symm
      · rw [← Option.some_inj.mp hsome]
        exact (isEmpty_false_iff _).mp (Bool.eq_false_iff.mpr hempty)

theorem descOf_no_newline {cs : List Char} (h : ∀ c ∈ cs, c ≠ '\n') :
    descOf cs = if cs.isEmpty then none else some cs := by
  have ht : cs.takeWhile (fun c => c != '\n') = cs :=
    List.takeWhile_eq_self_iff.mpr (fun c hc => by simpa using h c hc)
  have hd : cs.dropWhile (fun c => c != '\n') = [] :=
    List.dropWhile_eq_nil_iff.mpr (fun c hc => by simpa using h c hc)
  unfold descOf
  rw [ht, hd]
  cases cs with
  | nil => rfl
  | cons c cs2 => rfl

/-- C1: on every subject line (a string without newline characters),
`parse_commit` returns exactly what the grammar
`<type>[(<scope>)]: <description>` of `grammarParse` prescribes — for a
matching line, the type case-folded to lowercase, the scope (or `""` when
absent) and the description verbatim; for a non-matching line,
`(none, none, line)` with the original line unchanged. -/
theorem parse_commit_matches_grammar (line : String)
    (h : ∀ c ∈ line.data, c ≠ '\n') :
    parse_commit line =
      match grammarParse line with
      | some (t, sc, d) => (some t, some sc, d)
      | none => (none, none, line) := by
  have hsub1 : ∀ c ∈ line.data.dropWhile isWordChar, c ≠ '\n' :=
    fun c hc => h c ((List.dropWhile_sublist _).subset hc)
  unfold parse_commit grammarParse
  split
  · rfl
  · rename_i r heq hne
    have hr : ∀ c ∈ r, c ≠ '\n' := fun c hc => by
      apply hsub1
      rw [heq]
      exact List.mem_cons_of_mem _ hc
    split
    · rfl
    · rename_i r2 heq2 hne2
      have hr2 : ∀ c ∈ r2, c ≠ '\n' := fun c hc => by
        apply hr
        have hmem : c ∈ List.dropWhile (fun c => c != ')') r := by
          rw [heq2]
          simp [hc]
        exact (@List.dropWhile_sublist Char r (fun c => c != ')')).subset hmem
      rw [descOf_no_newline hr2]
      cases r2 with
      | nil => rfl
      | cons d0 ds => rfl
    · rfl
  · rename_i r2 heq hne
    have hr2 : ∀ c ∈ r2, c ≠ '\n' := fun c hc => by
      apply hsub1
      rw [heq]
      simp [hc]
    rw [descOf_no_newline hr2]
    cases r2 with
    | nil => rfl
    | cons d0 ds => rfl
  · rfl

/-- Witness for `parse_commit_matches_grammar` at concrete scoped/unscoped and
non-matching lines. -/
theorem parse_commit_matches_grammar_witness :
    (∀ c ∈ ("fix(auth): token bug" : String).data, c ≠ '\n')
    ∧ parse_commit "fix(auth): token bug" =
        match grammarParse "fix(auth): token bug" with
        | some (t, sc, d) => (some t, some sc, d)
        | none => (none, none, "fix(auth): token bug") :=
  ⟨by decide, parse_commit_matches_grammar "fix(auth): token bug" (by decide)⟩
